import Mathlib

/-!
Verification development for the adolphus tensor module
(src/adolphus/tensor.py).  The geometric helper layer (Point operations,
avg_points, point_segment_dis, poses and rotations) lives in modules of the
repository that are only consumed here (geometry.py, posable.py, coverage.py);
those helpers are modelled from the interface the spec gives for them, and each
such definition is marked in its doc comment.  Everything else is translated
from the source of tensor.py.
-/

/-- Modelled from the spec: the 3D point type of geometry.py, used for tensor
columns and centroids.  Coordinates are real numbers standing for floats. -/
structure Point where
  x : ℝ
  y : ℝ
  z : ℝ

noncomputable instance : Add Point := ⟨fun a b => ⟨a.x + b.x, a.y + b.y, a.z + b.z⟩⟩

noncomputable instance : Sub Point := ⟨fun a b => ⟨a.x - b.x, a.y - b.y, a.z - b.z⟩⟩

noncomputable instance : Neg Point := ⟨fun a => ⟨-a.x, -a.y, -a.z⟩⟩

noncomputable instance : SMul ℝ Point := ⟨fun r a => ⟨r * a.x, r * a.y, r * a.z⟩⟩

instance : Zero Point := ⟨⟨0, 0, 0⟩⟩

/-- Modelled from the spec: squared Euclidean norm of a point, the radicand of
the magnitude of a geometry.py Point. -/
noncomputable def sqmag (p : Point) : ℝ := p.x ^ 2 + p.y ^ 2 + p.z ^ 2

/-- Modelled from the spec: Point.magnitude of geometry.py, the Euclidean
norm. -/
noncomputable def magnitude (p : Point) : ℝ := Real.sqrt (sqmag p)

/-- Modelled from the spec: Point.unit of geometry.py, the vector normalized to
unit length. -/
noncomputable def unitP (p : Point) : Point := (magnitude p)⁻¹ • p

/-- Modelled from the spec: Point.euclidean of geometry.py, the Euclidean
distance between two points. -/
noncomputable def euclidean (p q : Point) : ℝ := magnitude (p - q)

/-- Modelled from the spec: Point.dot of geometry.py, the inner product. -/
noncomputable def dotP (a b : Point) : ℝ := a.x * b.x + a.y * b.y + a.z * b.z

/-- Modelled from the spec: Point.cross of geometry.py, the cross product. -/
noncomputable def cross (a b : Point) : Point :=
  ⟨a.y * b.z - a.z * b.y, a.z * b.x - a.x * b.z, a.x * b.y - a.y * b.x⟩

/-- Modelled from the spec: avg_points of geometry.py, the centroid of a list
of points. -/
noncomputable def avg_points (l : List Point) : Point :=
  ((l.length : ℝ))⁻¹ • (l.foldl (· + ·) 0)

/-- Modelled from the spec: point_segment_dis of geometry.py, the distance from
point p to the segment from a to b. -/
noncomputable def point_segment_dis (a b p : Point) : ℝ :=
  let d := b - a
  let t := dotP (p - a) d / sqmag d
  let tc := max 0 (min 1 t)
  euclidean p (a + tc • d)

/-- A 3x3 tensor, stored as its three columns.  The Tensor class of tensor.py
stores a flat row-major array; its 3x3 operations (unit, schatten, neg, the
strength and distance formulas) all access it column by column through
Point(self[0,j], self[1,j], self[2,j]), so the columns are the faithful
representation for them. -/
structure Tensor3 where
  c1 : Point
  c2 : Point
  c3 : Point

/-- Tensor.unit of tensor.py: normalize each of the three columns. -/
noncomputable def Tensor3.unit (m : Tensor3) : Tensor3 :=
  ⟨unitP m.c1, unitP m.c2, unitP m.c3⟩

/-- Tensor.__neg__ of tensor.py: negate columns 0 and 1 and keep column 2
(rotations about the optical axis are assumed to have no effect). -/
noncomputable def Tensor3.neg (m : Tensor3) : Tensor3 :=
  ⟨-m.c1, -m.c2, m.c3⟩

/-- Tensor.schatten of tensor.py: the Euclidean norm of the vector of column
magnitudes. -/
noncomputable def Tensor3.schatten (m : Tensor3) : ℝ :=
  Real.sqrt ((magnitude m.c1) ^ 2 + (magnitude m.c2) ^ 2 + (magnitude m.c3) ^ 2)

/-- Tensor.frobenius of tensor.py: the square root of the sum of squared
entrywise differences, grouped here by column. -/
noncomputable def Tensor3.frobenius (m t : Tensor3) : ℝ :=
  Real.sqrt (sqmag (t.c1 - m.c1) + sqmag (t.c2 - m.c2) + sqmag (t.c3 - m.c3))

/-- CameraTensor.axis and TriangleTensor.axis of tensor.py: the first column
of the stored tensor matrix, Point(self[0,0], self[1,0], self[2,0]). -/
def Tensor3.axis (m : Tensor3) : Point := m.c1

/-- The value part of a CameraTensor or TriangleTensor: the cached world-frame
centroid together with the 3x3 tensor matrix. -/
structure PTensor where
  centre : Point
  mat : Tensor3

/-- CameraTensor.strength of tensor.py: the coverage strength of a triangle
tensor with respect to a camera tensor. -/
noncomputable def CameraTensor.strength (cam tri : PTensor) : ℝ :=
  let euc_dis := euclidean cam.centre tri.centre
  let rot_dis := euclidean (unitP cam.mat.axis) (-(unitP tri.mat.axis))
  let re := 1 - euc_dis / cam.mat.schatten ^ 2
  let rr := 1 - rot_dis / Real.sqrt 2
  let de := if re < 0 then 0 else re
  let dr := if rr < 0 then 0 else rr
  Real.sqrt (de * dr)

/-- CameraTensor.vision_distance of tensor.py: the Frobenius distance between
the normalized tensors (the second one negated), weighted by the Euclidean
distance between the centroids; the ZeroDivisionError branch of the source is
the sentinel value -1, returned when the denominator term is exactly zero. -/
noncomputable def vision_distance (self other : PTensor) : ℝ :=
  let euc_dist := euclidean self.centre other.centre
  let frob_dis := Tensor3.frobenius self.mat.unit other.mat.unit.neg
  if 1 - frob_dis / Real.sqrt 8 = 0 then -1
  else (1 / (1 - frob_dis / Real.sqrt 8)) * (euc_dist + 1 / 10000)

/-- CameraTensor._get_tensor_matrix of tensor.py, camera-frame part: the three
basis vectors derived from the eight-point frustum hull (hull generation is
external, so the hull points are parameters).  The first axis points from the
hull centroid to the centroid of the far face, the second and third to the
centroids of two side faces. -/
noncomputable def camBasisLocal (h0 h1 h2 h3 h4 h5 h6 h7 : Point) :
    Point × Point × Point :=
  let centre_c := avg_points [h0, h1, h2, h3, h4, h5, h6, h7]
  (avg_points [h4, h5, h6, h7] - centre_c,
   avg_points [h2, h3, h6, h7] - centre_c,
   avg_points [h0, h3, h4, h7] - centre_c)

/-- CameraTensor._get_tensor_matrix of tensor.py: the stored tensor matrix, the
camera-frame basis with every column rotated into the world frame by the
camera orientation R (the rotation of posable.py is external and is modelled
as a map on points). -/
noncomputable def camTensorMatrix (R : Point → Point)
    (h0 h1 h2 h3 h4 h5 h6 h7 : Point) : Tensor3 :=
  let b := camBasisLocal h0 h1 h2 h3 h4 h5 h6 h7
  ⟨R b.1, R b.2.1, R b.2.2⟩

/-- TriangleTensor._get_tensor_basis of tensor.py: the triangle-frame basis.
The first axis is the normalized cross product of the normalized directions
from the centroid to the first two vertices, the second axis the normalized
direction from the centroid to the first vertex, the third the normalized
cross product of the second and the first; each is scaled by the minimum of
the distances from the centroid to the three edges (the radius of the largest
circle that can grow from the centre without crossing the edges).  The source
also computes vector3 from the third vertex but never uses it. -/
noncomputable def triBasis (v0 v1 v2 : Point) : Point × Point × Point :=
  let centre := avg_points [v0, v1, v2]
  let vector1 := v0 - centre
  let vector2 := v1 - centre
  let mag1 := point_segment_dis v0 v1 centre
  let mag2 := point_segment_dis v0 v2 centre
  let mag3 := point_segment_dis v1 v2 centre
  let mag := min mag1 (min mag2 mag3)
  let first_axis := unitP (cross (unitP vector1) (unitP vector2))
  let second_axis := unitP vector1
  let third_axis := unitP (cross second_axis first_axis)
  (mag • first_axis, mag • second_axis, mag • third_axis)

/-- TriangleTensor._get_tensor_matrix of tensor.py: the stored tensor matrix,
the triangle-frame basis with every column rotated into the world frame by the
pose rotation R. -/
noncomputable def triTensorMatrix (R : Point → Point) (v0 v1 v2 : Point) :
    Tensor3 :=
  let b := triBasis v0 v1 v2
  ⟨R b.1, R b.2.1, R b.2.2⟩

/-- The general Tensor of tensor.py: an h x w matrix.  The source stores a flat
row-major array of floats indexed by (i * w) + j; entries are modelled as a
total function read only at indexes i < h, j < w.  All numeric code is stated
over a linear ordered field so that floats can be read as real (or, for
concrete evaluation, rational) numbers. -/
structure Tensor (α : Type) where
  h : ℕ
  w : ℕ
  entry : ℕ → ℕ → α

/-- Tensor.__richcmp__ of tensor.py for the equality operator (o = 2): the
assertion that both tensors have the same size is the Except.error branch; on
equal sizes the result is True exactly when every pair of corresponding
entries differs by at most 1e-9. -/
def Tensor.eqCheck {α : Type} [LinearOrderedField α] (self t : Tensor α) :
    Except Unit Bool :=
  if self.h = t.h ∧ self.w = t.w then
    .ok (decide (∀ i < self.h, ∀ j < self.w,
      |self.entry i j - t.entry i j| ≤ 1 / 1000000000))
  else .error ()

section Aggregation

variable {α : Type} [LinearOrderedField α] {C : Type}

/-- Maximum of two float accumulators where none stands for float inf (the
initial minstrength of TensorModel.strength); max with inf is inf. -/
def optMax : Option α → Option α → Option α
  | none, _ => none
  | _, none => none
  | some a, some b => some (max a b)

/-- The inner camera loop of TensorModel.strength of tensor.py.  The
accumulator is minstrength, initialized to float inf (none).  s c is the
per-camera coverage strength self[camera].strength(triangle); occ c is the
external occlusion test self.occluded(triangle.centre, camera, triangle_set).
A camera with zero strength, or an occluded one, overwrites the accumulator
with exactly 0 and breaks out of the loop; Python short-circuits the or, so
occ is consulted only when the strength is nonzero. -/
def viewLoop (s : C → α) (occ : C → Bool) : Option α → List C → Option α
  | acc, [] => acc
  | acc, c :: rest =>
    if s c = 0 ∨ occ c = true then some 0
    else viewLoop s occ
      (some (match acc with
             | none => s c
             | some m => if s c < m then s c else m)) rest

/-- The outer view loop of TensorModel.strength of tensor.py.  The accumulator
is maxstrength, which starts at 0.0 but is an Option because max with an inf
minstrength (an empty view) makes it inf; the loop breaks as soon as it equals
exactly 1.0. -/
def viewsLoop (s : C → α) (occ : C → Bool) : Option α → List (List C) → Option α
  | acc, [] => acc
  | acc, v :: rest =>
    let acc2 := optMax acc (viewLoop s occ none v)
    if acc2 = some 1 then acc2 else viewsLoop s occ acc2 rest

/-- TensorModel.strength of tensor.py.  The enumeration of views over the
camera subset is produced by the external Model.views collaborator and enters
as the list of views; a result of none models the float inf that the source
returns when some view is empty. -/
def TensorModel.strength (s : C → α) (occ : C → Bool)
    (views : List (List C)) : Option α :=
  viewsLoop s occ (some 0) views

/-- Instrumented version of the inner camera loop: along with the value it
returns, in order, the cameras whose strength was computed and the cameras on
which the occlusion test was invoked. -/
def viewLoopT (s : C → α) (occ : C → Bool) :
    Option α → List C → Option α × List C × List C
  | acc, [] => (acc, [], [])
  | acc, c :: rest =>
    if s c = 0 then (some 0, [c], [])
    else if occ c = true then (some 0, [c], [c])
    else
      let r := viewLoopT s occ
        (some (match acc with
               | none => s c
               | some m => if s c < m then s c else m)) rest
      (r.1, c :: r.2.1, c :: r.2.2)

/-- Instrumented version of the outer view loop, accumulating the camera logs
of the views it actually evaluates. -/
def viewsLoopT (s : C → α) (occ : C → Bool) :
    Option α → List (List C) → Option α × List C × List C
  | acc, [] => (acc, [], [])
  | acc, v :: rest =>
    let m := viewLoopT s occ none v
    let acc2 := optMax acc m.1
    if acc2 = some 1 then (acc2, m.2.1, m.2.2)
    else
      let r := viewsLoopT s occ acc2 rest
      (r.1, m.2.1 ++ r.2.1, m.2.2 ++ r.2.2)

/-- Instrumented TensorModel.strength, recording which cameras had their
strength computed and which were occlusion-tested. -/
def TensorModel.strengthT (s : C → α) (occ : C → Bool)
    (views : List (List C)) : Option α × List C × List C :=
  viewsLoopT s occ (some 0) views

/-- The per-view value in the words of the spec: the minimum of the camera
strengths over the cameras of the view, forced to 0 as soon as some camera in
the view has strength 0 or is occluded. -/
def specView (s : C → α) (occ : C → Bool) (v : List C) : α :=
  if ∃ c ∈ v, s c = 0 ∨ occ c = true then 0
  else
    match v with
    | [] => 0
    | c :: rest => (rest.map s).foldl min (s c)

/-- The overall strength in the words of the spec: the maximum over the
enumerated views of the per-view value, with the maximum accumulator starting
at 0.0 so that an empty enumeration gives 0.0. -/
def specStrength (s : C → α) (occ : C → Bool) (views : List (List C)) : α :=
  (views.map (specView s occ)).foldl max 0

/-- TensorModel.performance of tensor.py.  The computed argument stands for
the coverage cache the method would build through TensorModel.coverage; the
given argument is the optional precomputed cache parameter.  Python evaluates
coverage or self.coverage(object, subset), so a given empty cache is falsy and
falls back to the computed one.  The final division Fn / Fd raises
ZeroDivisionError when the cache is empty, modelled by none. -/
def TensorModel.performance {K : Type} (computed : List (K × α))
    (given : Option (List (K × α))) : Option α :=
  let coverage :=
    match given with
    | none => computed
    | some c => if c.isEmpty then computed else c
  if coverage.isEmpty then none
  else some ((coverage.map Prod.snd).sum / (coverage.length : α))

end Aggregation

section TaskParams

variable {K V : Type} [DecidableEq K]

/-- Python dict item assignment d[k] = v on an association list: replace the
value at an existing key, otherwise append the new pair. -/
def dictSet (m : List (K × V)) (k : K) (v : V) : List (K × V) :=
  if m.any (fun p => decide (p.1 = k)) then
    m.map (fun p => if p.1 = k then (k, v) else p)
  else m ++ [(k, v)]

/-- Python dict lookup d[k] on an association list. -/
def dictGet (m : List (K × V)) (k : K) : Option V :=
  (m.find? (fun p => decide (p.1 = k))).map Prod.snd

/-- The task-parameter setup of CameraTensor.__init__ of tensor.py: the
statement self.task_params = self.defaults binds the instance dict to the
class-level defaults dict object without copying, and the following loop
writes the caller overrides into that shared dict in place.  The first
component is the task_params dict of the new instance and the second is the
class-level defaults dict after construction; both are the same object. -/
def initTaskParams (defaults : List (K × V)) (overrides : List (K × V)) :
    List (K × V) × List (K × V) :=
  let d := overrides.foldl (fun acc p => dictSet acc p.1 p.2) defaults
  (d, d)

end TaskParams

section PointLemmas

@[ext] lemma Point.ext3 {p q : Point} (hx : p.x = q.x) (hy : p.y = q.y)
    (hz : p.z = q.z) : p = q := by
  cases p; cases q; simp_all

@[simp] lemma Point.add_x (a b : Point) : (a + b).x = a.x + b.x := rfl

@[simp] lemma Point.add_y (a b : Point) : (a + b).y = a.y + b.y := rfl

@[simp] lemma Point.add_z (a b : Point) : (a + b).z = a.z + b.z := rfl

@[simp] lemma Point.sub_x (a b : Point) : (a - b).x = a.x - b.x := rfl

@[simp] lemma Point.sub_y (a b : Point) : (a - b).y = a.y - b.y := rfl

@[simp] lemma Point.sub_z (a b : Point) : (a - b).z = a.z - b.z := rfl

@[simp] lemma Point.neg_x (a : Point) : (-a).x = -a.x := rfl

@[simp] lemma Point.neg_y (a : Point) : (-a).y = -a.y := rfl

@[simp] lemma Point.neg_z (a : Point) : (-a).z = -a.z := rfl

@[simp] lemma Point.smul_x (r : ℝ) (a : Point) : (r • a).x = r * a.x := rfl

@[simp] lemma Point.smul_y (r : ℝ) (a : Point) : (r • a).y = r * a.y := rfl

@[simp] lemma Point.smul_z (r : ℝ) (a : Point) : (r • a).z = r * a.z := rfl

@[simp] lemma Point.zero_x : (0 : Point).x = 0 := rfl

@[simp] lemma Point.zero_y : (0 : Point).y = 0 := rfl

@[simp] lemma Point.zero_z : (0 : Point).z = 0 := rfl

lemma Point.smul_assoc (r s : ℝ) (p : Point) : r • s • p = (r * s) • p := by
  ext <;> simp <;> ring

lemma Point.one_smul (p : Point) : (1 : ℝ) • p = p := by
  ext <;> simp

lemma sqmag_nonneg (p : Point) : 0 ≤ sqmag p := by
  unfold sqmag; positivity

lemma magnitude_nonneg (p : Point) : 0 ≤ magnitude p := Real.sqrt_nonneg _

lemma euclidean_nonneg (p q : Point) : 0 ≤ euclidean p q := Real.sqrt_nonneg _

lemma sqmag_eq_zero {p : Point} : sqmag p = 0 ↔ p = 0 := by
  constructor
  · intro h
    have hx : p.x ^ 2 = 0 := by
      unfold sqmag at h; nlinarith [sq_nonneg p.y, sq_nonneg p.z]
    have hy : p.y ^ 2 = 0 := by
      unfold sqmag at h; nlinarith [sq_nonneg p.x, sq_nonneg p.z]
    have hz : p.z ^ 2 = 0 := by
      unfold sqmag at h; nlinarith [sq_nonneg p.x, sq_nonneg p.y]
    ext
    · exact pow_eq_zero_iff two_ne_zero |>.mp hx
    · exact pow_eq_zero_iff two_ne_zero |>.mp hy
    · exact pow_eq_zero_iff two_ne_zero |>.mp hz
  · intro h; simp [h, sqmag]

lemma magnitude_eq_zero {p : Point} : magnitude p = 0 ↔ p = 0 := by
  rw [magnitude, Real.sqrt_eq_zero (sqmag_nonneg p), sqmag_eq_zero]

lemma magnitude_pos {p : Point} (h : p ≠ 0) : 0 < magnitude p :=
  lt_of_le_of_ne (magnitude_nonneg p) (fun e => h (magnitude_eq_zero.mp e.symm))

lemma sq_magnitude (p : Point) : magnitude p ^ 2 = sqmag p :=
  Real.sq_sqrt (sqmag_nonneg p)

lemma magnitude_smul (r : ℝ) (p : Point) :
    magnitude (r • p) = |r| * magnitude p := by
  unfold magnitude
  have h : sqmag (r • p) = r ^ 2 * sqmag p := by unfold sqmag; simp; ring
  rw [h, Real.sqrt_mul (sq_nonneg r), Real.sqrt_sq_eq_abs]

lemma unitP_smul {r : ℝ} (hr : 0 < r) (p : Point) :
    unitP (r • p) = unitP p := by
  unfold unitP
  rw [magnitude_smul, abs_of_pos hr, Point.smul_assoc]
  congr 1
  rw [mul_inv]
  calc r⁻¹ * (magnitude p)⁻¹ * r = r⁻¹ * r * (magnitude p)⁻¹ := by ring
  _ = (magnitude p)⁻¹ := by rw [inv_mul_cancel₀ hr.ne', one_mul]

lemma magnitude_unitP {p : Point} (h : p ≠ 0) : magnitude (unitP p) = 1 := by
  unfold unitP
  rw [magnitude_smul, abs_inv, abs_of_nonneg (magnitude_nonneg p),
    inv_mul_cancel₀ (magnitude_pos h).ne']

lemma unitP_of_magnitude_one {p : Point} (h : magnitude p = 1) : unitP p = p := by
  unfold unitP; rw [h, inv_one, Point.one_smul]

lemma sqmag_unitP {p : Point} (h : p ≠ 0) : sqmag (unitP p) = 1 := by
  rw [← sq_magnitude, magnitude_unitP h, one_pow]

lemma cross_smul_left (r : ℝ) (a b : Point) :
    cross (r • a) b = r • cross a b := by
  unfold cross; ext <;> simp <;> ring

lemma cross_smul_right (r : ℝ) (a b : Point) :
    cross a (r • b) = r • cross a b := by
  unfold cross; ext <;> simp <;> ring

lemma dotP_cross_self (a b : Point) : dotP a (cross a b) = 0 := by
  unfold dotP cross; simp; ring

lemma dotP_smul_left (r : ℝ) (a b : Point) :
    dotP (r • a) b = r * dotP a b := by
  unfold dotP; simp; ring

lemma dotP_smul_right (r : ℝ) (a b : Point) :
    dotP a (r • b) = r * dotP a b := by
  unfold dotP; simp; ring

lemma sqmag_cross (a b : Point) :
    sqmag (cross a b) = sqmag a * sqmag b - dotP a b ^ 2 := by
  unfold sqmag cross dotP; simp; ring

lemma unitP_cross_unitP {a b : Point} (ha : a ≠ 0) (hb : b ≠ 0) :
    unitP (cross (unitP a) (unitP b)) = unitP (cross a b) := by
  have h : cross (unitP a) (unitP b) =
      ((magnitude a)⁻¹ * (magnitude b)⁻¹) • cross a b := by
    unfold unitP
    rw [cross_smul_left, cross_smul_right, Point.smul_assoc]
  rw [h, unitP_smul (mul_pos (inv_pos.mpr (magnitude_pos ha))
    (inv_pos.mpr (magnitude_pos hb)))]

lemma magnitude_cross_of_unit {a b : Point} (ha : magnitude a = 1)
    (hb : magnitude b = 1) (hab : dotP a b = 0) :
    magnitude (cross a b) = 1 := by
  have h : sqmag (cross a b) = 1 := by
    rw [sqmag_cross, hab, ← sq_magnitude, ← sq_magnitude, ha, hb]; norm_num
  rw [magnitude, h, Real.sqrt_one]

end PointLemmas

section AggLemmas

variable {α : Type} [LinearOrderedField α] {C : Type}
variable (s : C → α) (occ : C → Bool)

lemma ite_lt_min (a m : α) : (if a < m then a else m) = min m a := by
  rcases lt_or_le a m with h | h
  · rw [if_pos h, min_def, if_neg (not_le.mpr h)]
  · rw [if_neg (not_lt.mpr h), min_def, if_pos h]

lemma viewLoop_bad :
    ∀ (v : List C) (acc : Option α), (∃ c ∈ v, s c = 0 ∨ occ c = true) →
    viewLoop s occ acc v = some 0 := by
  intro v
  induction v with
  | nil => rintro acc ⟨c, hc, -⟩; cases hc
  | cons c rest ih =>
    rintro acc ⟨c', hc', hbad⟩
    by_cases h : s c = 0 ∨ occ c = true
    · simp [viewLoop, h]
    · have hm : c' ∈ rest := by
        rcases List.mem_cons.mp hc' with rfl | hm
        · exact absurd hbad h
        · exact hm
      simp only [viewLoop, if_neg h]
      exact ih _ ⟨c', hm, hbad⟩

lemma viewLoop_good :
    ∀ (v : List C) (m : α), (∀ c ∈ v, ¬(s c = 0 ∨ occ c = true)) →
    viewLoop s occ (some m) v = some ((v.map s).foldl min m) := by
  intro v
  induction v with
  | nil => intro m _; simp [viewLoop]
  | cons c rest ih =>
    intro m h
    have hc := h c (List.mem_cons_self c rest)
    simp only [viewLoop, if_neg hc, List.map_cons, List.foldl_cons]
    rw [ite_lt_min]
    exact ih (min m (s c)) (fun c' hc' => h c' (List.mem_cons_of_mem c hc'))

lemma viewLoop_eq_specView (v : List C) (hne : v ≠ []) :
    viewLoop s occ none v = some (specView s occ v) := by
  by_cases hb : ∃ c ∈ v, s c = 0 ∨ occ c = true
  · rw [viewLoop_bad s occ v none hb]
    simp only [specView]
    rw [if_pos hb]
  · have hgood : ∀ c ∈ v, ¬(s c = 0 ∨ occ c = true) := fun c hc h => hb ⟨c, hc, h⟩
    obtain ⟨c, rest, rfl⟩ := List.exists_cons_of_ne_nil hne
    simp only [specView]
    rw [if_neg hb]
    have hc := hgood c (List.mem_cons_self c rest)
    simp only [viewLoop, if_neg hc]
    exact viewLoop_good s occ rest (s c)
      (fun c' hc' => hgood c' (List.mem_cons_of_mem c hc'))

lemma foldl_min_le_init (l : List α) : ∀ a : α, l.foldl min a ≤ a := by
  induction l with
  | nil => intro a; exact le_refl a
  | cons x t ih =>
    intro a
    calc t.foldl min (min a x) ≤ min a x := ih (min a x)
    _ ≤ a := min_le_left a x

lemma le_foldl_min (l : List α) :
    ∀ a b : α, b ≤ a → (∀ x ∈ l, b ≤ x) → b ≤ l.foldl min a := by
  induction l with
  | nil => intro a b hba _; exact hba
  | cons x t ih =>
    intro a b hba h
    exact ih (min a x) b (le_min hba (h x (List.mem_cons_self x t)))
      (fun y hy => h y (List.mem_cons_of_mem x hy))

lemma specView_le_one (v : List C) (h : ∀ c ∈ v, s c ≤ 1) :
    specView s occ v ≤ 1 := by
  simp only [specView]
  split_ifs with h'
  · exact zero_le_one
  · match v with
    | [] => exact zero_le_one
    | c :: rest =>
      exact (foldl_min_le_init (rest.map s) (s c)).trans
        (h c (List.mem_cons_self c rest))

lemma specView_nonneg (v : List C) (h : ∀ c ∈ v, 0 ≤ s c) :
    0 ≤ specView s occ v := by
  simp only [specView]
  split_ifs with h'
  · exact le_refl 0
  · match v with
    | [] => exact le_refl 0
    | c :: rest =>
      refine le_foldl_min (rest.map s) (s c) 0
        (h c (List.mem_cons_self c rest)) ?_
      intro x hx
      obtain ⟨c', hc', rfl⟩ := List.mem_map.mp hx
      exact h c' (List.mem_cons_of_mem c hc')

lemma foldl_max_of_le (l : List α) :
    ∀ a : α, (∀ x ∈ l, x ≤ a) → l.foldl max a = a := by
  induction l with
  | nil => intro a _; rfl
  | cons x t ih =>
    intro a h
    have hx : max a x = a := max_eq_left (h x (List.mem_cons_self x t))
    rw [List.foldl_cons, hx]
    exact ih a (fun y hy => h y (List.mem_cons_of_mem x hy))

lemma le_foldl_max (l : List α) : ∀ a : α, a ≤ l.foldl max a := by
  induction l with
  | nil => intro a; exact le_refl a
  | cons x t ih =>
    intro a
    exact (le_max_left a x).trans (ih (max a x))

lemma foldl_max_le (l : List α) :
    ∀ a b : α, a ≤ b → (∀ x ∈ l, x ≤ b) → l.foldl max a ≤ b := by
  induction l with
  | nil => intro a b hab _; exact hab
  | cons x t ih =>
    intro a b hab h
    exact ih (max a x) b (max_le hab (h x (List.mem_cons_self x t)))
      (fun y hy => h y (List.mem_cons_of_mem x hy))

lemma viewsLoop_eq_spec :
    ∀ (views : List (List C)) (a : α), a ≤ 1 →
    (∀ v ∈ views, v ≠ []) → (∀ v ∈ views, ∀ c ∈ v, s c ≤ 1) →
    viewsLoop s occ (some a) views =
      some ((views.map (specView s occ)).foldl max a) := by
  intro views
  induction views with
  | nil => intro a _ _ _; rfl
  | cons v rest ih =>
    intro a ha hne hb
    have hv := viewLoop_eq_specView s occ v (hne v (List.mem_cons_self v rest))
    have hsv1 : specView s occ v ≤ 1 :=
      specView_le_one s occ v (hb v (List.mem_cons_self v rest))
    simp only [viewsLoop, hv, optMax, List.map_cons, List.foldl_cons]
    by_cases h1 : max a (specView s occ v) = 1
    · rw [if_pos (by rw [h1])]
      have hall : ∀ x ∈ rest.map (specView s occ), x ≤ max a (specView s occ v) := by
        rw [h1]
        intro x hx
        obtain ⟨v', hv', rfl⟩ := List.mem_map.mp hx
        exact specView_le_one s occ v' (hb v' (List.mem_cons_of_mem v hv'))
      rw [foldl_max_of_le _ _ hall, h1]
    · rw [if_neg (by simpa using h1)]
      exact ih (max a (specView s occ v)) (max_le ha hsv1)
        (fun v' hv' => hne v' (List.mem_cons_of_mem v hv'))
        (fun v' hv' => hb v' (List.mem_cons_of_mem v hv'))

lemma viewLoopT_fst :
    ∀ (v : List C) (acc : Option α),
    (viewLoopT s occ acc v).1 = viewLoop s occ acc v := by
  intro v
  induction v with
  | nil => intro acc; rfl
  | cons c rest ih =>
    intro acc
    by_cases h0 : s c = 0
    · simp [viewLoopT, viewLoop, h0]
    · by_cases ho : occ c = true
      · simp [viewLoopT, viewLoop, h0, ho]
      · simp only [viewLoopT, viewLoop, if_neg h0, if_neg ho,
          if_neg (by simp [h0, ho] : ¬(s c = 0 ∨ occ c = true))]
        exact ih _

lemma viewsLoopT_fst :
    ∀ (views : List (List C)) (acc : Option α),
    (viewsLoopT s occ acc views).1 = viewsLoop s occ acc views := by
  intro views
  induction views with
  | nil => intro acc; rfl
  | cons v rest ih =>
    intro acc
    simp only [viewsLoopT, viewsLoop, viewLoopT_fst]
    split_ifs with h
    · rfl
    · exact ih _

lemma viewLoopT_occ_ne_zero :
    ∀ (v : List C) (acc : Option α) (c : C),
    c ∈ (viewLoopT s occ acc v).2.2 → s c ≠ 0 := by
  intro v
  induction v with
  | nil => intro acc c hc; simp [viewLoopT] at hc
  | cons c' rest ih =>
    intro acc c hc
    by_cases h0 : s c' = 0
    · simp [viewLoopT, h0] at hc
    · by_cases ho : occ c' = true
      · simp [viewLoopT, h0, ho] at hc
        rw [hc]; exact h0
      · simp only [viewLoopT, if_neg h0, if_neg ho, List.mem_cons] at hc
        rcases hc with rfl | hc
        · exact h0
        · exact ih _ c hc

lemma viewsLoopT_occ_ne_zero :
    ∀ (views : List (List C)) (acc : Option α) (c : C),
    c ∈ (viewsLoopT s occ acc views).2.2 → s c ≠ 0 := by
  intro views
  induction views with
  | nil => intro acc c hc; simp [viewsLoopT] at hc
  | cons v rest ih =>
    intro acc c hc
    simp only [viewsLoopT] at hc
    split_ifs at hc with h
    · exact viewLoopT_occ_ne_zero s occ v none c hc
    · simp only [List.mem_append] at hc
      rcases hc with hc | hc
      · exact viewLoopT_occ_ne_zero s occ v none c hc
      · exact ih _ c hc

lemma viewsLoopT_stop :
    ∀ (v1 v2 : List (List C)) (acc : Option α), acc ≠ some 1 →
    viewsLoop s occ acc v1 = some 1 →
    viewsLoopT s occ acc (v1 ++ v2) = viewsLoopT s occ acc v1 := by
  intro v1
  induction v1 with
  | nil => intro v2 acc hacc h; exact absurd h hacc
  | cons v t ih =>
    intro v2 acc hacc h
    simp only [viewsLoop] at h
    simp only [List.cons_append, viewsLoopT, viewLoopT_fst]
    by_cases h1 : optMax acc (viewLoop s occ none v) = some 1
    · rw [if_pos h1, if_pos h1]
    · rw [if_neg h1, if_neg h1]
      rw [if_neg h1] at h
      simp only [List.append_eq]
      rw [ih v2 _ h1 h]

lemma viewLoopT_skip :
    ∀ (p : List C) (acc : Option α) (c : C) (r : List C),
    (∀ c' ∈ p, ¬(s c' = 0 ∨ occ c' = true)) → (s c = 0 ∨ occ c = true) →
    (viewLoopT s occ acc (p ++ c :: r)).2.1 = p ++ [c] := by
  intro p
  induction p with
  | nil =>
    intro acc c r _ hc
    by_cases h0 : s c = 0
    · simp [viewLoopT, h0]
    · rcases hc with h | ho
      · exact absurd h h0
      · simp [viewLoopT, h0, ho]
  | cons c' t ih =>
    intro acc c r hp hc
    have h' := hp c' (List.mem_cons_self c' t)
    have h0 : ¬s c' = 0 := fun h => h' (Or.inl h)
    have ho : ¬occ c' = true := fun h => h' (Or.inr h)
    simp only [List.cons_append, viewLoopT, if_neg h0, if_neg ho]
    simp only [List.append_eq]
    rw [ih _ c r (fun x hx => hp x (List.mem_cons_of_mem c' hx)) hc]

end AggLemmas

section ClaimC1C7

/-- C1: TensorModel.strength computes exactly the specified aggregation: the
result is the maximum over the enumerated views of the per-view minimum of the
camera strengths, a view being forced to 0 (with the rest of the view skipped)
as soon as some camera in it has strength 0 or is occluded; the occlusion test
is never invoked on a camera of strength 0; the maximum accumulator starts at
0.0 (so an empty enumeration returns 0.0, the views = [] case of the first
conjunct); and evaluation of views stops as soon as the accumulated maximum is
exactly 1.0.  Camera strengths lie in [0, 1] (the range of
CameraTensor.strength) and every enumerated view holds at least one camera. -/
theorem c1_tensor_model_strength {α : Type} [LinearOrderedField α] {C : Type}
    (s : C → α) (occ : C → Bool) (views : List (List C))
    (hne : ∀ v ∈ views, v ≠ [])
    (hb : ∀ v ∈ views, ∀ c ∈ v, 0 ≤ s c ∧ s c ≤ 1) :
    TensorModel.strength s occ views = some (specStrength s occ views)
    ∧ (∀ c, c ∈ (TensorModel.strengthT s occ views).2.2 → s c ≠ 0)
    ∧ (∀ v1 v2, views = v1 ++ v2 → TensorModel.strength s occ v1 = some 1 →
        TensorModel.strengthT s occ views = TensorModel.strengthT s occ v1)
    ∧ (∀ (p : List C) (c : C) (r : List C) (acc : Option α),
        (∀ c' ∈ p, ¬(s c' = 0 ∨ occ c' = true)) → (s c = 0 ∨ occ c = true) →
        (viewLoopT s occ acc (p ++ c :: r)).2.1 = p ++ [c]) := by
  refine ⟨?_, ?_, ?_, ?_⟩
  · exact viewsLoop_eq_spec s occ views 0 zero_le_one hne
      (fun v hv c hc => (hb v hv c hc).2)
  · intro c hc
    exact viewsLoopT_occ_ne_zero s occ views (some 0) c hc
  · intro v1 v2 hsplit h1
    subst hsplit
    exact viewsLoopT_stop s occ v1 v2 (some 0)
      (fun h => zero_ne_one (Option.some.inj h)) h1
  · intro p c r acc hp hc
    exact viewLoopT_skip s occ p acc c r hp hc

theorem c1_tensor_model_strength_witness :
    (∀ v ∈ ([[0], [1]] : List (List ℕ)), v ≠ []) ∧
    (∀ v ∈ ([[0], [1]] : List (List ℕ)), ∀ c ∈ v,
      0 ≤ (1 / 2 : ℚ) ∧ (1 / 2 : ℚ) ≤ 1) ∧
    TensorModel.strength (fun _ : ℕ => (1 / 2 : ℚ)) (fun _ => false)
        [[0], [1]] =
      some (specStrength (fun _ : ℕ => (1 / 2 : ℚ)) (fun _ => false)
        [[0], [1]]) :=
  ⟨by decide, by intro v _ c _; norm_num,
    (c1_tensor_model_strength (fun _ : ℕ => (1 / 2 : ℚ)) (fun _ => false)
      [[0], [1]] (by decide) (by intro v _ c _; norm_num)).1⟩

/-- C7 (amended): for strengths in [0, 1] and a view enumeration all of whose
views contain at least one camera, TensorModel.strength returns a value in
[0, 1].  The restriction to non-empty views is forced by the counterexample:
on a view with zero cameras the inner minimum accumulator keeps its initial
float inf and the method returns inf, not a value in [0, 1]. -/
theorem c7_strength_range {α : Type} [LinearOrderedField α] {C : Type}
    (s : C → α) (occ : C → Bool) (views : List (List C))
    (hne : ∀ v ∈ views, v ≠ [])
    (hb : ∀ v ∈ views, ∀ c ∈ v, 0 ≤ s c ∧ s c ≤ 1) :
    ∃ r, TensorModel.strength s occ views = some r ∧ 0 ≤ r ∧ r ≤ 1 := by
  refine ⟨(views.map (specView s occ)).foldl max 0, ?_, ?_, ?_⟩
  · exact viewsLoop_eq_spec s occ views 0 zero_le_one hne
      (fun v hv c hc => (hb v hv c hc).2)
  · exact le_foldl_max _ 0
  · refine foldl_max_le _ 0 1 zero_le_one ?_
    intro x hx
    obtain ⟨v, hv, rfl⟩ := List.mem_map.mp hx
    exact specView_le_one s occ v (fun c hc => (hb v hv c hc).2)

theorem c7_strength_range_counterexample :
    TensorModel.strength (fun _ : ℕ => (0 : ℚ)) (fun _ => false)
      [([] : List ℕ)] = none ∧
    ¬ ∃ r : ℚ, TensorModel.strength (fun _ : ℕ => (0 : ℚ)) (fun _ => false)
      [([] : List ℕ)] = some r ∧ 0 ≤ r ∧ r ≤ 1 := by
  refine ⟨by decide, ?_⟩
  rintro ⟨r, hr, -⟩
  rw [show TensorModel.strength (fun _ : ℕ => (0 : ℚ)) (fun _ => false)
    [([] : List ℕ)] = none by decide] at hr
  cases hr

theorem c7_strength_range_witness :
    (∀ v ∈ ([[0]] : List (List ℕ)), v ≠ []) ∧
    (∀ v ∈ ([[0]] : List (List ℕ)), ∀ c ∈ v,
      0 ≤ (1 / 4 : ℚ) ∧ (1 / 4 : ℚ) ≤ 1) ∧
    ∃ r : ℚ, TensorModel.strength (fun _ : ℕ => (1 / 4 : ℚ))
      (fun _ => false) [[0]] = some r ∧ 0 ≤ r ∧ r ≤ 1 :=
  ⟨by decide, by intro v _ c _; norm_num,
    c7_strength_range (fun _ : ℕ => (1 / 4 : ℚ)) (fun _ => false)
      [[0]] (by decide) (by intro v _ c _; norm_num)⟩

end ClaimC1C7

section ConcreteHelpers

lemma magnitude_e1 : magnitude ⟨1, 0, 0⟩ = 1 := by
  unfold magnitude sqmag; norm_num [Real.sqrt_one]

lemma magnitude_e2 : magnitude ⟨0, 1, 0⟩ = 1 := by
  unfold magnitude sqmag; norm_num [Real.sqrt_one]

lemma magnitude_e3 : magnitude ⟨0, 0, 1⟩ = 1 := by
  unfold magnitude sqmag; norm_num [Real.sqrt_one]

lemma e1_ne_zero : (⟨1, 0, 0⟩ : Point) ≠ 0 := by
  intro h
  have hx := congrArg Point.x h
  norm_num at hx

lemma e2_ne_zero : (⟨0, 1, 0⟩ : Point) ≠ 0 := by
  intro h
  have hy := congrArg Point.y h
  norm_num at hy

lemma e3_ne_zero : (⟨0, 0, 1⟩ : Point) ≠ 0 := by
  intro h
  have hz := congrArg Point.z h
  norm_num at hz

lemma ne1_ne_zero : (⟨-1, 0, 0⟩ : Point) ≠ 0 := by
  intro h
  have hx := congrArg Point.x h
  norm_num at hx

lemma schatten_id : Tensor3.schatten ⟨⟨1, 0, 0⟩, ⟨0, 1, 0⟩, ⟨0, 0, 1⟩⟩ =
    Real.sqrt 3 := by
  unfold Tensor3.schatten
  rw [magnitude_e1, magnitude_e2, magnitude_e3]
  norm_num

lemma schatten_id_ne_zero :
    Tensor3.schatten ⟨⟨1, 0, 0⟩, ⟨0, 1, 0⟩, ⟨0, 0, 1⟩⟩ ≠ 0 := by
  rw [schatten_id]
  rw [Real.sqrt_ne_zero']
  norm_num

lemma unit3_id : Tensor3.unit ⟨⟨1, 0, 0⟩, ⟨0, 1, 0⟩, ⟨0, 0, 1⟩⟩ =
    ⟨⟨1, 0, 0⟩, ⟨0, 1, 0⟩, ⟨0, 0, 1⟩⟩ := by
  unfold Tensor3.unit
  congr 1
  · exact unitP_of_magnitude_one magnitude_e1
  · exact unitP_of_magnitude_one magnitude_e2
  · exact unitP_of_magnitude_one magnitude_e3

lemma frobenius_id_neg_id :
    Tensor3.frobenius (Tensor3.unit ⟨⟨1, 0, 0⟩, ⟨0, 1, 0⟩, ⟨0, 0, 1⟩⟩)
      (Tensor3.neg (Tensor3.unit ⟨⟨1, 0, 0⟩, ⟨0, 1, 0⟩, ⟨0, 0, 1⟩⟩)) =
    Real.sqrt 8 := by
  rw [unit3_id]
  unfold Tensor3.frobenius Tensor3.neg
  simp only [sqmag]
  norm_num

end ConcreteHelpers

section ClaimC2C5

/-- C2: CameraTensor.strength equals the floored two-factor formula of the
spec and always lies in [0, 1]; in particular it is 0 whenever either floored
factor is 0.  The hypotheses are the nondegeneracy conditions of the claim: a
nonzero schatten norm and nonzero first basis columns. -/
theorem c2_camera_strength (cam tri : PTensor)
    (h1 : cam.mat.schatten ≠ 0) (h2 : cam.mat.c1 ≠ 0) (h3 : tri.mat.c1 ≠ 0) :
    CameraTensor.strength cam tri =
      Real.sqrt
        (max 0 (1 - euclidean cam.centre tri.centre / cam.mat.schatten ^ 2) *
         max 0 (1 - euclidean (unitP cam.mat.axis) (-(unitP tri.mat.axis)) /
           Real.sqrt 2))
    ∧ 0 ≤ CameraTensor.strength cam tri
    ∧ CameraTensor.strength cam tri ≤ 1
    ∧ ((max 0 (1 - euclidean cam.centre tri.centre / cam.mat.schatten ^ 2) = 0
        ∨ max 0 (1 - euclidean (unitP cam.mat.axis) (-(unitP tri.mat.axis)) /
            Real.sqrt 2) = 0) →
        CameraTensor.strength cam tri = 0) := by
  have hmax : ∀ x : ℝ, (if x < 0 then (0 : ℝ) else x) = max 0 x := by
    intro x
    rcases lt_or_le x 0 with h | h
    · rw [if_pos h, max_eq_left h.le]
    · rw [if_neg (not_lt.mpr h), max_eq_right h]
  have heq : CameraTensor.strength cam tri =
      Real.sqrt
        (max 0 (1 - euclidean cam.centre tri.centre / cam.mat.schatten ^ 2) *
         max 0 (1 - euclidean (unitP cam.mat.axis) (-(unitP tri.mat.axis)) /
           Real.sqrt 2)) := by
    simp only [CameraTensor.strength]
    rw [hmax, hmax]
  have hre : 1 - euclidean cam.centre tri.centre / cam.mat.schatten ^ 2 ≤ 1 := by
    have : 0 ≤ euclidean cam.centre tri.centre / cam.mat.schatten ^ 2 :=
      div_nonneg (euclidean_nonneg _ _) (sq_nonneg _)
    linarith
  have hrr : 1 - euclidean (unitP cam.mat.axis) (-(unitP tri.mat.axis)) /
      Real.sqrt 2 ≤ 1 := by
    have : 0 ≤ euclidean (unitP cam.mat.axis) (-(unitP tri.mat.axis)) /
        Real.sqrt 2 :=
      div_nonneg (euclidean_nonneg _ _) (Real.sqrt_nonneg 2)
    linarith
  have hprod : max 0 (1 - euclidean cam.centre tri.centre /
        cam.mat.schatten ^ 2) *
      max 0 (1 - euclidean (unitP cam.mat.axis) (-(unitP tri.mat.axis)) /
        Real.sqrt 2) ≤ 1 :=
    mul_le_one₀ (max_le zero_le_one hre) (le_max_left 0 _)
      (max_le zero_le_one hrr)
  refine ⟨heq, ?_, ?_, ?_⟩
  · rw [heq]; exact Real.sqrt_nonneg _
  · rw [heq]; exact Real.sqrt_le_one.mpr hprod
  · rintro (h | h) <;> rw [heq, h]
    · rw [zero_mul, Real.sqrt_zero]
    · rw [mul_zero, Real.sqrt_zero]

theorem c2_camera_strength_witness :
    Tensor3.schatten (PTensor.mat ⟨0, ⟨⟨1, 0, 0⟩, ⟨0, 1, 0⟩, ⟨0, 0, 1⟩⟩⟩) ≠ 0
    ∧ (PTensor.mat ⟨0, ⟨⟨1, 0, 0⟩, ⟨0, 1, 0⟩, ⟨0, 0, 1⟩⟩⟩).c1 ≠ 0
    ∧ (PTensor.mat ⟨⟨1, 0, 0⟩, ⟨⟨-1, 0, 0⟩, ⟨0, 1, 0⟩, ⟨0, 0, 1⟩⟩⟩).c1 ≠ 0
    ∧ 0 ≤ CameraTensor.strength ⟨0, ⟨⟨1, 0, 0⟩, ⟨0, 1, 0⟩, ⟨0, 0, 1⟩⟩⟩
        ⟨⟨1, 0, 0⟩, ⟨⟨-1, 0, 0⟩, ⟨0, 1, 0⟩, ⟨0, 0, 1⟩⟩⟩
    ∧ CameraTensor.strength ⟨0, ⟨⟨1, 0, 0⟩, ⟨0, 1, 0⟩, ⟨0, 0, 1⟩⟩⟩
        ⟨⟨1, 0, 0⟩, ⟨⟨-1, 0, 0⟩, ⟨0, 1, 0⟩, ⟨0, 0, 1⟩⟩⟩ ≤ 1 := by
  have h1 : Tensor3.schatten
      (PTensor.mat ⟨0, ⟨⟨1, 0, 0⟩, ⟨0, 1, 0⟩, ⟨0, 0, 1⟩⟩⟩) ≠ 0 :=
    schatten_id_ne_zero
  have h2 : (PTensor.mat ⟨0, ⟨⟨1, 0, 0⟩, ⟨0, 1, 0⟩, ⟨0, 0, 1⟩⟩⟩).c1 ≠ 0 :=
    e1_ne_zero
  have h3 : (PTensor.mat
      ⟨⟨1, 0, 0⟩, ⟨⟨-1, 0, 0⟩, ⟨0, 1, 0⟩, ⟨0, 0, 1⟩⟩⟩).c1 ≠ 0 :=
    ne1_ne_zero
  exact ⟨h1, h2, h3,
    (c2_camera_strength _ _ h1 h2 h3).2.1,
    (c2_camera_strength _ _ h1 h2 h3).2.2.1⟩

/-- C5: vision_distance returns the weighted Frobenius formula of the spec,
except that a denominator term of exactly zero yields the sentinel -1 (the
ZeroDivisionError handler of the source) instead of a division fault.  The
hypotheses are the nonzero-column conditions of the claim. -/
theorem c5_vision_distance (self other : PTensor)
    (h1 : self.mat.c1 ≠ 0) (h2 : self.mat.c2 ≠ 0) (h3 : self.mat.c3 ≠ 0)
    (h4 : other.mat.c1 ≠ 0) (h5 : other.mat.c2 ≠ 0) (h6 : other.mat.c3 ≠ 0) :
    (1 - Tensor3.frobenius self.mat.unit other.mat.unit.neg / Real.sqrt 8 ≠ 0 →
      vision_distance self other =
        (1 / (1 - Tensor3.frobenius self.mat.unit other.mat.unit.neg /
          Real.sqrt 8)) * (euclidean self.centre other.centre + 1 / 10000))
    ∧ (1 - Tensor3.frobenius self.mat.unit other.mat.unit.neg / Real.sqrt 8 = 0 →
      vision_distance self other = -1) := by
  constructor
  · intro h
    simp only [vision_distance]
    rw [if_neg h]
  · intro h
    simp only [vision_distance]
    rw [if_pos h]

theorem c5_vision_distance_witness :
    ((PTensor.mat ⟨0, ⟨⟨1, 0, 0⟩, ⟨0, 1, 0⟩, ⟨0, 0, 1⟩⟩⟩).c1 ≠ 0
    ∧ (PTensor.mat ⟨0, ⟨⟨1, 0, 0⟩, ⟨0, 1, 0⟩, ⟨0, 0, 1⟩⟩⟩).c2 ≠ 0
    ∧ (PTensor.mat ⟨0, ⟨⟨1, 0, 0⟩, ⟨0, 1, 0⟩, ⟨0, 0, 1⟩⟩⟩).c3 ≠ 0)
    ∧ vision_distance ⟨0, ⟨⟨1, 0, 0⟩, ⟨0, 1, 0⟩, ⟨0, 0, 1⟩⟩⟩
        ⟨0, ⟨⟨1, 0, 0⟩, ⟨0, 1, 0⟩, ⟨0, 0, 1⟩⟩⟩ = -1 := by
  have h1 : (PTensor.mat ⟨0, ⟨⟨1, 0, 0⟩, ⟨0, 1, 0⟩, ⟨0, 0, 1⟩⟩⟩).c1 ≠ 0 :=
    e1_ne_zero
  have h2 : (PTensor.mat ⟨0, ⟨⟨1, 0, 0⟩, ⟨0, 1, 0⟩, ⟨0, 0, 1⟩⟩⟩).c2 ≠ 0 :=
    e2_ne_zero
  have h3 : (PTensor.mat ⟨0, ⟨⟨1, 0, 0⟩, ⟨0, 1, 0⟩, ⟨0, 0, 1⟩⟩⟩).c3 ≠ 0 :=
    e3_ne_zero
  have hden : 1 - Tensor3.frobenius
      (PTensor.mat ⟨0, ⟨⟨1, 0, 0⟩, ⟨0, 1, 0⟩, ⟨0, 0, 1⟩⟩⟩).unit
      ((PTensor.mat ⟨0, ⟨⟨1, 0, 0⟩, ⟨0, 1, 0⟩, ⟨0, 0, 1⟩⟩⟩).unit.neg) /
      Real.sqrt 8 = 0 := by
    show 1 - Tensor3.frobenius
      (Tensor3.unit ⟨⟨1, 0, 0⟩, ⟨0, 1, 0⟩, ⟨0, 0, 1⟩⟩)
      (Tensor3.neg (Tensor3.unit ⟨⟨1, 0, 0⟩, ⟨0, 1, 0⟩, ⟨0, 0, 1⟩⟩)) /
      Real.sqrt 8 = 0
    rw [frobenius_id_neg_id,
      div_self (Real.sqrt_ne_zero'.mpr (by norm_num : (0 : ℝ) < 8))]
    norm_num
  exact ⟨⟨h1, h2, h3⟩,
    (c5_vision_distance _ _ h1 h2 h3 h1 h2 h3).2 hden⟩

end ClaimC2C5

section DictLemmas

variable {K V : Type} [DecidableEq K]

lemma dictGet_dictSet (m : List (K × V)) (k : K) (v : V) :
    dictGet (dictSet m k v) k = some v := by
  induction m with
  | nil => simp [dictSet, dictGet]
  | cons p t ih =>
    by_cases hp : p.1 = k
    · rw [dictSet, if_pos (by simp [List.any_cons, hp])]
      simp [dictGet, List.find?_cons, hp]
    · by_cases ht : t.any (fun q => decide (q.1 = k))
      · rw [dictSet, if_pos (by simp [List.any_cons, hp, ht])]
        have ih' := ih
        rw [dictSet, if_pos ht] at ih'
        simp only [dictGet, List.map_cons, List.find?_cons, if_neg hp] at ih' ⊢
        rw [decide_eq_false hp]
        exact ih'
      · rw [dictSet, if_neg (by simp [List.any_cons, hp, ht])]
        have ih' := ih
        rw [dictSet, if_neg ht] at ih'
        simp only [dictGet, List.cons_append, List.find?_cons] at ih' ⊢
        rw [decide_eq_false hp]
        exact ih'

end DictLemmas

section ClaimC6C8C9C10

/-- C6: Tensor equality is defined only between tensors of identical shape:
on equal shapes it holds exactly when every pair of corresponding entries
differs by at most 1e-9, it is reflexive and symmetric, and on mismatched
shapes the comparison is a shape-mismatch error (the failed assertion of the
source), not False. -/
theorem c6_tensor_eq {α : Type} [LinearOrderedField α] (A B : Tensor α) :
    (A.h = B.h ∧ A.w = B.w →
      (A.eqCheck B = .ok true ↔
        ∀ i < A.h, ∀ j < A.w,
          |A.entry i j - B.entry i j| ≤ 1 / 1000000000))
    ∧ A.eqCheck A = .ok true
    ∧ A.eqCheck B = B.eqCheck A
    ∧ (¬(A.h = B.h ∧ A.w = B.w) → A.eqCheck B = .error ()) := by
  refine ⟨?_, ?_, ?_, ?_⟩
  · intro hs
    rw [Tensor.eqCheck, if_pos hs]
    simp [decide_eq_true_iff]
  · rw [Tensor.eqCheck, if_pos ⟨rfl, rfl⟩]
    simp only [Except.ok.injEq, decide_eq_true_iff]
    intro i _ j _
    rw [sub_self, abs_zero]
    positivity
  · by_cases hs : A.h = B.h ∧ A.w = B.w
    · have hs' : B.h = A.h ∧ B.w = A.w := ⟨hs.1.symm, hs.2.symm⟩
      rw [Tensor.eqCheck, if_pos hs, Tensor.eqCheck, if_pos hs']
      congr 1
      rw [decide_eq_decide]
      constructor
      · intro h i hi j hj
        rw [abs_sub_comm]
        exact h i (by omega) j (by omega)
      · intro h i hi j hj
        rw [abs_sub_comm]
        exact h i (by omega) j (by omega)
    · have hs' : ¬(B.h = A.h ∧ B.w = A.w) := fun h => hs ⟨h.1.symm, h.2.symm⟩
      rw [Tensor.eqCheck, if_neg hs, Tensor.eqCheck, if_neg hs']
  · intro hs
    rw [Tensor.eqCheck, if_neg hs]

theorem c6_tensor_eq_witness :
    Tensor.eqCheck (Tensor.mk 1 1 (fun _ _ => (5 : ℚ)))
      (Tensor.mk 1 1 (fun _ _ => (5 : ℚ))) = .ok true
    ∧ ¬((Tensor.mk 1 1 (fun _ _ => (5 : ℚ))).h =
          (Tensor.mk 1 2 (fun _ _ => (0 : ℚ))).h ∧
        (Tensor.mk 1 1 (fun _ _ => (5 : ℚ))).w =
          (Tensor.mk 1 2 (fun _ _ => (0 : ℚ))).w)
    ∧ Tensor.eqCheck (Tensor.mk 1 1 (fun _ _ => (5 : ℚ)))
      (Tensor.mk 1 2 (fun _ _ => (0 : ℚ))) = .error () :=
  ⟨(c6_tensor_eq (Tensor.mk 1 1 (fun _ _ => (5 : ℚ)))
      (Tensor.mk 1 1 (fun _ _ => (5 : ℚ)))).2.1,
   by decide,
   (c6_tensor_eq (Tensor.mk 1 1 (fun _ _ => (5 : ℚ)))
      (Tensor.mk 1 2 (fun _ _ => (0 : ℚ)))).2.2.2 (by decide)⟩

/-- C8: TensorModel.performance returns the arithmetic mean of the values of
the coverage cache: the mean of the given cache when a non-empty one is
supplied, and the mean of the cache computed through coverage when none (or a
falsy empty one) is given. -/
theorem c8_performance {K α : Type} [LinearOrderedField α]
    (computed c : List (K × α)) :
    (c ≠ [] → TensorModel.performance computed (some c) =
      some ((c.map Prod.snd).sum / (c.length : α)))
    ∧ (computed ≠ [] → TensorModel.performance computed none =
      some ((computed.map Prod.snd).sum / (computed.length : α)))
    ∧ TensorModel.performance computed (some []) =
      TensorModel.performance computed none := by
  refine ⟨?_, ?_, rfl⟩
  · intro hc
    obtain ⟨x, xs, rfl⟩ := List.exists_cons_of_ne_nil hc
    simp [TensorModel.performance]
  · intro hc
    obtain ⟨x, xs, rfl⟩ := List.exists_cons_of_ne_nil hc
    simp [TensorModel.performance]

theorem c8_performance_witness :
    ([((0 : ℕ), (1 : ℚ)), (1, 0)] ≠ ([] : List (ℕ × ℚ)))
    ∧ TensorModel.performance ([] : List (ℕ × ℚ))
        (some [((0 : ℕ), (1 : ℚ)), (1, 0)]) = some (1 / 2) := by
  have h := (c8_performance ([] : List (ℕ × ℚ))
    [((0 : ℕ), (1 : ℚ)), (1, 0)]).1 (List.cons_ne_nil _ _)
  refine ⟨List.cons_ne_nil _ _, ?_⟩
  rw [h]
  norm_num

/-- C9: CameraTensor construction binds the instance task_params to the shared
class-level defaults dict and writes the overrides into it in place, so a
later construction with no overrides observes the earlier override instead of
the documented default. -/
theorem c9_task_params_aliasing {K V : Type} [DecidableEq K]
    (defaults : List (K × V)) (k : K) (v0 v : V)
    (h0 : dictGet defaults k = some v0) (hne : v ≠ v0) :
    (initTaskParams defaults [(k, v)]).1 = (initTaskParams defaults [(k, v)]).2
    ∧ dictGet (initTaskParams (initTaskParams defaults [(k, v)]).2 []).1 k =
        some v
    ∧ dictGet (initTaskParams (initTaskParams defaults [(k, v)]).2 []).1 k ≠
        some v0 := by
  refine ⟨rfl, ?_, ?_⟩
  · show dictGet (dictSet defaults k v) k = some v
    exact dictGet_dictSet defaults k v
  · show dictGet (dictSet defaults k v) k ≠ some v0
    rw [dictGet_dictSet]
    intro h
    exact hne (Option.some.inj h)

theorem c9_task_params_aliasing_witness :
    dictGet [((0 : ℕ), (1 : ℕ))] 0 = some 1 ∧ (2 : ℕ) ≠ 1
    ∧ dictGet
        (initTaskParams (initTaskParams [((0 : ℕ), (1 : ℕ))] [(0, 2)]).2 []).1
        0 = some 2 :=
  ⟨by decide, by decide,
   (c9_task_params_aliasing [((0 : ℕ), (1 : ℕ))] 0 1 2 (by decide)
     (by decide)).2.1⟩

/-- C10: when the coverage cache is empty (no triangles and no non-empty
precomputed cache), the final division of TensorModel.performance is 0.0/0.0
and the call fails with a division-by-zero error (modelled by none); it does
not return 0.0 or any other value. -/
theorem c10_empty_cache_division {K α : Type} [LinearOrderedField α] :
    TensorModel.performance ([] : List (K × α)) none = none
    ∧ TensorModel.performance ([] : List (K × α)) (some []) = none :=
  ⟨rfl, rfl⟩

end ClaimC6C8C9C10

section TriBasisLemmas

lemma dotP_unitP_zero {a b : Point} (h : dotP a b = 0) :
    dotP (unitP a) (unitP b) = 0 := by
  unfold unitP
  rw [dotP_smul_left, dotP_smul_right, h]
  ring

lemma triBasis_eq (v0 v1 v2 c u1 u2 : Point) (m : ℝ)
    (hc : c = avg_points [v0, v1, v2])
    (hu1 : u1 = v0 - c) (hu2 : u2 = v1 - c)
    (hm : m = min (point_segment_dis v0 v1 c)
      (min (point_segment_dis v0 v2 c) (point_segment_dis v1 v2 c)))
    (h1 : u1 ≠ 0) (h2 : u2 ≠ 0) (hw : cross u1 u2 ≠ 0) :
    triBasis v0 v1 v2 =
      (m • unitP (cross u1 u2), m • unitP u1,
       m • cross (unitP u1) (unitP (cross u1 u2))) := by
  subst hu1 hu2 hc hm
  simp only [triBasis]
  rw [unitP_cross_unitP h1 h2]
  have hthird :
      unitP (cross (unitP (v0 - avg_points [v0, v1, v2]))
        (unitP (cross (v0 - avg_points [v0, v1, v2])
          (v1 - avg_points [v0, v1, v2])))) =
      cross (unitP (v0 - avg_points [v0, v1, v2]))
        (unitP (cross (v0 - avg_points [v0, v1, v2])
          (v1 - avg_points [v0, v1, v2]))) := by
    refine unitP_of_magnitude_one (magnitude_cross_of_unit
      (magnitude_unitP h1) (magnitude_unitP hw) ?_)
    exact dotP_unitP_zero (dotP_cross_self _ _)
  rw [hthird]

lemma sqrt_eval {a b : ℝ} (hb : 0 ≤ b) (h : a = b ^ 2) : Real.sqrt a = b := by
  rw [h, Real.sqrt_sq hb]

lemma euclidean_eval (p q : Point) {s : ℝ} (h : sqmag (p - q) = s) :
    euclidean p q = Real.sqrt s := by
  rw [euclidean, magnitude, h]

lemma tri_centre_eval :
    avg_points [(⟨0, 0, 0⟩ : Point), ⟨1, 0, 0⟩, ⟨0, 1, 0⟩] =
      ⟨1 / 3, 1 / 3, 0⟩ := by
  ext <;> simp [avg_points] <;> norm_num

lemma pds_01_c :
    point_segment_dis ⟨0, 0, 0⟩ ⟨1, 0, 0⟩ ⟨1 / 3, 1 / 3, 0⟩ = 1 / 3 := by
  simp only [point_segment_dis]
  have ht : dotP ((⟨1 / 3, 1 / 3, 0⟩ : Point) - ⟨0, 0, 0⟩)
      ((⟨1, 0, 0⟩ : Point) - ⟨0, 0, 0⟩) /
      sqmag ((⟨1, 0, 0⟩ : Point) - ⟨0, 0, 0⟩) = 1 / 3 := by
    simp [dotP, sqmag] <;> norm_num
  rw [ht, show max 0 (min 1 (1 / 3 : ℝ)) = 1 / 3 by norm_num]
  have hpt : (⟨0, 0, 0⟩ : Point) +
      (1 / 3 : ℝ) • ((⟨1, 0, 0⟩ : Point) - ⟨0, 0, 0⟩) = ⟨1 / 3, 0, 0⟩ := by
    ext <;> simp <;> norm_num
  rw [hpt, euclidean_eval _ _ (by simp [sqmag] <;> norm_num : sqmag
    ((⟨1 / 3, 1 / 3, 0⟩ : Point) - ⟨1 / 3, 0, 0⟩) = 1 / 9)]
  exact sqrt_eval (by norm_num) (by norm_num)

lemma pds_02_c :
    point_segment_dis ⟨0, 0, 0⟩ ⟨0, 1, 0⟩ ⟨1 / 3, 1 / 3, 0⟩ = 1 / 3 := by
  simp only [point_segment_dis]
  have ht : dotP ((⟨1 / 3, 1 / 3, 0⟩ : Point) - ⟨0, 0, 0⟩)
      ((⟨0, 1, 0⟩ : Point) - ⟨0, 0, 0⟩) /
      sqmag ((⟨0, 1, 0⟩ : Point) - ⟨0, 0, 0⟩) = 1 / 3 := by
    simp [dotP, sqmag] <;> norm_num
  rw [ht, show max 0 (min 1 (1 / 3 : ℝ)) = 1 / 3 by norm_num]
  have hpt : (⟨0, 0, 0⟩ : Point) +
      (1 / 3 : ℝ) • ((⟨0, 1, 0⟩ : Point) - ⟨0, 0, 0⟩) = ⟨0, 1 / 3, 0⟩ := by
    ext <;> simp <;> norm_num
  rw [hpt, euclidean_eval _ _ (by simp [sqmag] <;> norm_num : sqmag
    ((⟨1 / 3, 1 / 3, 0⟩ : Point) - ⟨0, 1 / 3, 0⟩) = 1 / 9)]
  exact sqrt_eval (by norm_num) (by norm_num)

lemma pds_12_c :
    point_segment_dis ⟨1, 0, 0⟩ ⟨0, 1, 0⟩ ⟨1 / 3, 1 / 3, 0⟩ =
      Real.sqrt (1 / 18) := by
  simp only [point_segment_dis]
  have ht : dotP ((⟨1 / 3, 1 / 3, 0⟩ : Point) - ⟨1, 0, 0⟩)
      ((⟨0, 1, 0⟩ : Point) - ⟨1, 0, 0⟩) /
      sqmag ((⟨0, 1, 0⟩ : Point) - ⟨1, 0, 0⟩) = 1 / 2 := by
    simp [dotP, sqmag] <;> norm_num
  rw [ht, show max 0 (min 1 (1 / 2 : ℝ)) = 1 / 2 by norm_num]
  have hpt : (⟨1, 0, 0⟩ : Point) +
      (1 / 2 : ℝ) • ((⟨0, 1, 0⟩ : Point) - ⟨1, 0, 0⟩) = ⟨1 / 2, 1 / 2, 0⟩ := by
    ext <;> simp <;> norm_num
  rw [hpt, euclidean_eval _ _ (by simp [sqmag] <;> norm_num : sqmag
    ((⟨1 / 3, 1 / 3, 0⟩ : Point) - ⟨1 / 2, 1 / 2, 0⟩) = 1 / 18)]

lemma pds_12_0 :
    point_segment_dis ⟨1, 0, 0⟩ ⟨0, 1, 0⟩ ⟨0, 0, 0⟩ = Real.sqrt (1 / 2) := by
  simp only [point_segment_dis]
  have ht : dotP ((⟨0, 0, 0⟩ : Point) - ⟨1, 0, 0⟩)
      ((⟨0, 1, 0⟩ : Point) - ⟨1, 0, 0⟩) /
      sqmag ((⟨0, 1, 0⟩ : Point) - ⟨1, 0, 0⟩) = 1 / 2 := by
    simp [dotP, sqmag] <;> norm_num
  rw [ht, show max 0 (min 1 (1 / 2 : ℝ)) = 1 / 2 by norm_num]
  have hpt : (⟨1, 0, 0⟩ : Point) +
      (1 / 2 : ℝ) • ((⟨0, 1, 0⟩ : Point) - ⟨1, 0, 0⟩) = ⟨1 / 2, 1 / 2, 0⟩ := by
    ext <;> simp <;> norm_num
  rw [hpt, euclidean_eval _ _ (by simp [sqmag] <;> norm_num : sqmag
    ((⟨0, 0, 0⟩ : Point) - ⟨1 / 2, 1 / 2, 0⟩) = 1 / 2)]

lemma pds_02_1 :
    point_segment_dis ⟨0, 0, 0⟩ ⟨0, 1, 0⟩ ⟨1, 0, 0⟩ = 1 := by
  simp only [point_segment_dis]
  have ht : dotP ((⟨1, 0, 0⟩ : Point) - ⟨0, 0, 0⟩)
      ((⟨0, 1, 0⟩ : Point) - ⟨0, 0, 0⟩) /
      sqmag ((⟨0, 1, 0⟩ : Point) - ⟨0, 0, 0⟩) = 0 := by
    simp [dotP, sqmag]
  rw [ht, show max 0 (min 1 (0 : ℝ)) = 0 by norm_num]
  have hpt : (⟨0, 0, 0⟩ : Point) +
      (0 : ℝ) • ((⟨0, 1, 0⟩ : Point) - ⟨0, 0, 0⟩) = ⟨0, 0, 0⟩ := by
    ext <;> simp
  rw [hpt, euclidean_eval _ _ (by simp [sqmag] <;> norm_num : sqmag
    ((⟨1, 0, 0⟩ : Point) - ⟨0, 0, 0⟩) = 1)]
  exact sqrt_eval (by norm_num) (by norm_num)

lemma pds_01_2 :
    point_segment_dis ⟨0, 0, 0⟩ ⟨1, 0, 0⟩ ⟨0, 1, 0⟩ = 1 := by
  simp only [point_segment_dis]
  have ht : dotP ((⟨0, 1, 0⟩ : Point) - ⟨0, 0, 0⟩)
      ((⟨1, 0, 0⟩ : Point) - ⟨0, 0, 0⟩) /
      sqmag ((⟨1, 0, 0⟩ : Point) - ⟨0, 0, 0⟩) = 0 := by
    simp [dotP, sqmag]
  rw [ht, show max 0 (min 1 (0 : ℝ)) = 0 by norm_num]
  have hpt : (⟨0, 0, 0⟩ : Point) +
      (0 : ℝ) • ((⟨1, 0, 0⟩ : Point) - ⟨0, 0, 0⟩) = ⟨0, 0, 0⟩ := by
    ext <;> simp
  rw [hpt, euclidean_eval _ _ (by simp [sqmag] <;> norm_num : sqmag
    ((⟨0, 1, 0⟩ : Point) - ⟨0, 0, 0⟩) = 1)]
  exact sqrt_eval (by norm_num) (by norm_num)

lemma tri_mag_eval :
    min (point_segment_dis ⟨0, 0, 0⟩ ⟨1, 0, 0⟩ ⟨1 / 3, 1 / 3, 0⟩)
      (min (point_segment_dis ⟨0, 0, 0⟩ ⟨0, 1, 0⟩ ⟨1 / 3, 1 / 3, 0⟩)
        (point_segment_dis ⟨1, 0, 0⟩ ⟨0, 1, 0⟩ ⟨1 / 3, 1 / 3, 0⟩)) =
      Real.sqrt (1 / 18) := by
  rw [pds_01_c, pds_02_c, pds_12_c]
  have h18 : Real.sqrt (1 / 18) ≤ 1 / 3 := by
    have := Real.sqrt_le_sqrt (by norm_num : (1 / 18 : ℝ) ≤ 1 / 9)
    rwa [sqrt_eval (by norm_num) (by norm_num : (1 / 9 : ℝ) = (1 / 3) ^ 2)]
      at this
  rw [min_eq_right h18, min_eq_right h18]

lemma tri_cross_eval :
    cross ⟨-(1 / 3), -(1 / 3), 0⟩ ⟨2 / 3, -(1 / 3), 0⟩ =
      (⟨0, 0, 1 / 3⟩ : Point) := by
  ext <;> simp [cross] <;> norm_num

lemma tri_unit_cross_eval :
    unitP (⟨0, 0, 1 / 3⟩ : Point) = ⟨0, 0, 1⟩ := by
  unfold unitP
  rw [show magnitude ⟨0, 0, 1 / 3⟩ = 1 / 3 from
    sqrt_eval (by norm_num) (by simp [sqmag] <;> norm_num)]
  ext <;> simp <;> norm_num

end TriBasisLemmas

section ClaimC3C4

theorem c3_triangle_basis_counterexample :
    ¬ (magnitude ((triTensorMatrix id ⟨0, 0, 0⟩ ⟨1, 0, 0⟩ ⟨0, 1, 0⟩).c1) =
       min (point_segment_dis ⟨1, 0, 0⟩ ⟨0, 1, 0⟩ ⟨0, 0, 0⟩)
         (min (point_segment_dis ⟨0, 0, 0⟩ ⟨0, 1, 0⟩ ⟨1, 0, 0⟩)
              (point_segment_dis ⟨0, 0, 0⟩ ⟨1, 0, 0⟩ ⟨0, 1, 0⟩))) := by
  have hu1 : (⟨-(1 / 3), -(1 / 3), 0⟩ : Point) =
      (⟨0, 0, 0⟩ : Point) - ⟨1 / 3, 1 / 3, 0⟩ := by
    ext <;> simp <;> norm_num
  have hu2 : (⟨2 / 3, -(1 / 3), 0⟩ : Point) =
      (⟨1, 0, 0⟩ : Point) - ⟨1 / 3, 1 / 3, 0⟩ := by
    ext <;> simp <;> norm_num
  have h1 : (⟨-(1 / 3), -(1 / 3), 0⟩ : Point) ≠ 0 := by
    intro h
    have hx := congrArg Point.x h
    norm_num at hx
  have h2 : (⟨2 / 3, -(1 / 3), 0⟩ : Point) ≠ 0 := by
    intro h
    have hx := congrArg Point.x h
    norm_num at hx
  have hw : cross ⟨-(1 / 3), -(1 / 3), 0⟩ ⟨2 / 3, -(1 / 3), 0⟩ ≠ 0 := by
    rw [tri_cross_eval]
    intro h
    have hz := congrArg Point.z h
    norm_num at hz
  have hb := triBasis_eq ⟨0, 0, 0⟩ ⟨1, 0, 0⟩ ⟨0, 1, 0⟩ ⟨1 / 3, 1 / 3, 0⟩
    ⟨-(1 / 3), -(1 / 3), 0⟩ ⟨2 / 3, -(1 / 3), 0⟩
    (min (point_segment_dis ⟨0, 0, 0⟩ ⟨1, 0, 0⟩ ⟨1 / 3, 1 / 3, 0⟩)
      (min (point_segment_dis ⟨0, 0, 0⟩ ⟨0, 1, 0⟩ ⟨1 / 3, 1 / 3, 0⟩)
        (point_segment_dis ⟨1, 0, 0⟩ ⟨0, 1, 0⟩ ⟨1 / 3, 1 / 3, 0⟩)))
    tri_centre_eval.symm hu1 hu2 rfl h1 h2 hw
  have hb1 : (triTensorMatrix id ⟨0, 0, 0⟩ ⟨1, 0, 0⟩ ⟨0, 1, 0⟩).c1 =
      (min (point_segment_dis ⟨0, 0, 0⟩ ⟨1, 0, 0⟩ ⟨1 / 3, 1 / 3, 0⟩)
        (min (point_segment_dis ⟨0, 0, 0⟩ ⟨0, 1, 0⟩ ⟨1 / 3, 1 / 3, 0⟩)
          (point_segment_dis ⟨1, 0, 0⟩ ⟨0, 1, 0⟩ ⟨1 / 3, 1 / 3, 0⟩))) •
      unitP (cross ⟨-(1 / 3), -(1 / 3), 0⟩ ⟨2 / 3, -(1 / 3), 0⟩) := by
    show (triBasis ⟨0, 0, 0⟩ ⟨1, 0, 0⟩ ⟨0, 1, 0⟩).1 = _
    rw [hb]
  rw [hb1, tri_cross_eval, tri_unit_cross_eval, tri_mag_eval, magnitude_smul,
    magnitude_e3, abs_of_nonneg (Real.sqrt_nonneg _), mul_one,
    pds_12_0, pds_02_1, pds_01_2, min_self,
    min_eq_left (Real.sqrt_le_one.mpr (by norm_num : (1 / 2 : ℝ) ≤ 1))]
  exact ne_of_lt (Real.sqrt_lt_sqrt (by norm_num) (by norm_num))

/-- C3 (amended): the columns of the triangle tensor basis are the unit
surface normal (the normalized cross product of the centroid-to-first-vertex
and centroid-to-second-vertex directions), the unit direction from the
centroid to the first vertex (an in-plane direction, though not in general an
edge direction), and the unit in-plane direction orthogonal to both, each
scaled by the minimum of the distances from the centroid to the three edges
(the radius of the largest circle centred at the centroid that stays inside
the triangle, not the minimum vertex-to-opposite-edge distance), then rotated
into world frame by the pose rotation. -/
theorem c3_triangle_basis (R : Point → Point) (v0 v1 v2 c u1 u2 : Point)
    (m : ℝ)
    (hc : c = avg_points [v0, v1, v2])
    (hu1 : u1 = v0 - c) (hu2 : u2 = v1 - c)
    (hm : m = min (point_segment_dis v0 v1 c)
      (min (point_segment_dis v0 v2 c) (point_segment_dis v1 v2 c)))
    (h1 : u1 ≠ 0) (h2 : u2 ≠ 0) (hw : cross u1 u2 ≠ 0) :
    triTensorMatrix R v0 v1 v2 =
      ⟨R (m • unitP (cross u1 u2)), R (m • unitP u1),
       R (m • cross (unitP u1) (unitP (cross u1 u2)))⟩ := by
  have hb := triBasis_eq v0 v1 v2 c u1 u2 m hc hu1 hu2 hm h1 h2 hw
  simp only [triTensorMatrix]
  rw [hb]

theorem c3_triangle_basis_witness :
    ((⟨1 / 3, 1 / 3, 0⟩ : Point) =
      avg_points [(⟨0, 0, 0⟩ : Point), ⟨1, 0, 0⟩, ⟨0, 1, 0⟩])
    ∧ ((⟨-(1 / 3), -(1 / 3), 0⟩ : Point) =
        (⟨0, 0, 0⟩ : Point) - ⟨1 / 3, 1 / 3, 0⟩)
    ∧ ((⟨2 / 3, -(1 / 3), 0⟩ : Point) =
        (⟨1, 0, 0⟩ : Point) - ⟨1 / 3, 1 / 3, 0⟩)
    ∧ (⟨-(1 / 3), -(1 / 3), 0⟩ : Point) ≠ 0
    ∧ (⟨2 / 3, -(1 / 3), 0⟩ : Point) ≠ 0
    ∧ cross ⟨-(1 / 3), -(1 / 3), 0⟩ ⟨2 / 3, -(1 / 3), 0⟩ ≠ 0
    ∧ triTensorMatrix id ⟨0, 0, 0⟩ ⟨1, 0, 0⟩ ⟨0, 1, 0⟩ =
      ⟨id ((min (point_segment_dis ⟨0, 0, 0⟩ ⟨1, 0, 0⟩ ⟨1 / 3, 1 / 3, 0⟩)
          (min (point_segment_dis ⟨0, 0, 0⟩ ⟨0, 1, 0⟩ ⟨1 / 3, 1 / 3, 0⟩)
            (point_segment_dis ⟨1, 0, 0⟩ ⟨0, 1, 0⟩ ⟨1 / 3, 1 / 3, 0⟩))) •
          unitP (cross ⟨-(1 / 3), -(1 / 3), 0⟩ ⟨2 / 3, -(1 / 3), 0⟩)),
       id ((min (point_segment_dis ⟨0, 0, 0⟩ ⟨1, 0, 0⟩ ⟨1 / 3, 1 / 3, 0⟩)
          (min (point_segment_dis ⟨0, 0, 0⟩ ⟨0, 1, 0⟩ ⟨1 / 3, 1 / 3, 0⟩)
            (point_segment_dis ⟨1, 0, 0⟩ ⟨0, 1, 0⟩ ⟨1 / 3, 1 / 3, 0⟩))) •
          unitP ⟨-(1 / 3), -(1 / 3), 0⟩),
       id ((min (point_segment_dis ⟨0, 0, 0⟩ ⟨1, 0, 0⟩ ⟨1 / 3, 1 / 3, 0⟩)
          (min (point_segment_dis ⟨0, 0, 0⟩ ⟨0, 1, 0⟩ ⟨1 / 3, 1 / 3, 0⟩)
            (point_segment_dis ⟨1, 0, 0⟩ ⟨0, 1, 0⟩ ⟨1 / 3, 1 / 3, 0⟩))) •
          cross (unitP ⟨-(1 / 3), -(1 / 3), 0⟩)
            (unitP (cross ⟨-(1 / 3), -(1 / 3), 0⟩ ⟨2 / 3, -(1 / 3), 0⟩)))⟩ := by
  have hc : (⟨1 / 3, 1 / 3, 0⟩ : Point) =
      avg_points [(⟨0, 0, 0⟩ : Point), ⟨1, 0, 0⟩, ⟨0, 1, 0⟩] :=
    tri_centre_eval.symm
  have hu1 : (⟨-(1 / 3), -(1 / 3), 0⟩ : Point) =
      (⟨0, 0, 0⟩ : Point) - ⟨1 / 3, 1 / 3, 0⟩ := by
    ext <;> simp <;> norm_num
  have hu2 : (⟨2 / 3, -(1 / 3), 0⟩ : Point) =
      (⟨1, 0, 0⟩ : Point) - ⟨1 / 3, 1 / 3, 0⟩ := by
    ext <;> simp <;> norm_num
  have h1 : (⟨-(1 / 3), -(1 / 3), 0⟩ : Point) ≠ 0 := by
    intro h
    have hx := congrArg Point.x h
    norm_num at hx
  have h2 : (⟨2 / 3, -(1 / 3), 0⟩ : Point) ≠ 0 := by
    intro h
    have hx := congrArg Point.x h
    norm_num at hx
  have hw : cross ⟨-(1 / 3), -(1 / 3), 0⟩ ⟨2 / 3, -(1 / 3), 0⟩ ≠ 0 := by
    rw [tri_cross_eval]
    intro h
    have hz := congrArg Point.z h
    norm_num at hz
  exact ⟨hc, hu1, hu2, h1, h2, hw,
    c3_triangle_basis id ⟨0, 0, 0⟩ ⟨1, 0, 0⟩ ⟨0, 1, 0⟩ ⟨1 / 3, 1 / 3, 0⟩
      ⟨-(1 / 3), -(1 / 3), 0⟩ ⟨2 / 3, -(1 / 3), 0⟩ _ hc hu1 hu2 rfl h1 h2 hw⟩

theorem c4_camera_axis_counterexample :
    (camTensorMatrix (fun p => ⟨p.x, -p.z, p.y⟩)
      ⟨-1, -1, 0⟩ ⟨1, -1, 0⟩ ⟨1, 1, 0⟩ ⟨-1, 1, 0⟩
      ⟨-1, -1, 1⟩ ⟨1, -1, 1⟩ ⟨1, 1, 1⟩ ⟨-1, 1, 1⟩).axis ≠
    (camBasisLocal ⟨-1, -1, 0⟩ ⟨1, -1, 0⟩ ⟨1, 1, 0⟩ ⟨-1, 1, 0⟩
      ⟨-1, -1, 1⟩ ⟨1, -1, 1⟩ ⟨1, 1, 1⟩ ⟨-1, 1, 1⟩).1 := by
  have hfirst : (camBasisLocal ⟨-1, -1, 0⟩ ⟨1, -1, 0⟩ ⟨1, 1, 0⟩ ⟨-1, 1, 0⟩
      ⟨-1, -1, 1⟩ ⟨1, -1, 1⟩ ⟨1, 1, 1⟩ ⟨-1, 1, 1⟩).1 =
      ⟨0, 0, 1 / 2⟩ := by
    ext <;> simp [camBasisLocal, avg_points] <;> norm_num
  have haxis : (camTensorMatrix (fun p => ⟨p.x, -p.z, p.y⟩)
      ⟨-1, -1, 0⟩ ⟨1, -1, 0⟩ ⟨1, 1, 0⟩ ⟨-1, 1, 0⟩
      ⟨-1, -1, 1⟩ ⟨1, -1, 1⟩ ⟨1, 1, 1⟩ ⟨-1, 1, 1⟩).axis =
      ⟨0, -(1 / 2), 0⟩ := by
    show (fun p : Point => (⟨p.x, -p.z, p.y⟩ : Point))
      ((camBasisLocal ⟨-1, -1, 0⟩ ⟨1, -1, 0⟩ ⟨1, 1, 0⟩ ⟨-1, 1, 0⟩
        ⟨-1, -1, 1⟩ ⟨1, -1, 1⟩ ⟨1, 1, 1⟩ ⟨-1, 1, 1⟩).1) = _
    rw [hfirst]
  rw [haxis, hfirst]
  intro h
  have hz := congrArg Point.z h
  norm_num at hz

/-- C4 (amended): the axis property returns the first column of the stored
tensor matrix, Point(self[0,0], self[1,0], self[2,0]); since the stored
matrix is expressed in the world coordinate system, this column is the
camera-frame first frustum axis rotated into the world frame by the camera
orientation, not an unrotated camera-local vector. -/
theorem c4_camera_axis (R : Point → Point) (h0 h1 h2 h3 h4 h5 h6 h7 : Point) :
    (camTensorMatrix R h0 h1 h2 h3 h4 h5 h6 h7).axis =
      R ((camBasisLocal h0 h1 h2 h3 h4 h5 h6 h7).1) := rfl

end ClaimC3C4
